import Mathlib

/-!
Verification of the QCoDeS transaction-scoping wrapper (`ConnectionPlus`,
`make_plus_connection_from`, `atomic` from `qcodes.dataset.sqlite_base`) and of
two instrument drivers (`Keysight34980A`, `RohdeSchwarz_SMBV100A`).

The implementation module `qcodes/dataset/sqlite_base.py` is not part of the
reviewed sources (only its test-suite `tests/dataset/test_sqlite_connection.py`
is), so the transaction machinery below is modelled from the specification's
entry/exit algorithms and checked for consistency with the behaviour the
in-repository tests assert.  The driver code is embedded directly from the
sources.
-/

namespace Qcodes

/-- Engine-level commands issued by the scoping wrapper to the database. -/
inductive Cmd where
  | begin
  | commit
  | rollback
deriving DecidableEq, Repr

/-- Modelled from the spec: the observable state of one database connection
augmented by the wrapper (`ConnectionPlus` over one sqlite handle plus the
engine state behind it).  `committed` are the rows a fresh independent
connection to the same database sees; `pending` are rows written inside the
currently open transaction (visible on this connection only);
`inTransaction` is the engine's live open-transaction signal
(`sqlite3.Connection.in_transaction`); `isolation` is the ambient
isolation/autocommit setting (`isolation_level`); `trace` records every
BEGIN/COMMIT/ROLLBACK the wrapper issued to the engine. -/
@[ext]
structure ConnState where
  atomic_in_progress : Bool
  isolation : Option String
  inTransaction : Bool
  committed : List Nat
  pending : List Nat
  trace : List Cmd
deriving DecidableEq, Repr

/-- Rows visible to a fresh independent connection to the same database. -/
def visible_to_fresh (s : ConnState) : List Nat := s.committed

/-- Rows visible through the connection itself (committed plus the rows of the
open, uncommitted transaction). -/
def visible_same_conn (s : ConnState) : List Nat := s.committed ++ s.pending

/-- An idle connection: no scope owns a transaction, the engine has no open
transaction, and nothing is pending. -/
def Idle (s : ConnState) : Prop :=
  s.atomic_in_progress = false ∧ s.inTransaction = false ∧ s.pending = []

/-- Programs run against one connection: row inserts, a raised failure
(carrying an identifying code), sequencing, and a nested `atomic` scope. -/
inductive Act where
  | skip
  | insert (r : Nat)
  | raise (e : Nat)
  | seq (a b : Act)
  | atomic (body : Act)
deriving DecidableEq, Repr

/-- Modelled from the spec: owner-scope entry (spec §4.2 steps 2-3 and §9) —
suppress the ambient autocommit mode (set `isolation_level` to `None`), issue
an explicit BEGIN to the engine, and set `atomic_in_progress`. -/
def atomicEntry (s : ConnState) : ConnState :=
  { s with isolation := none
         , inTransaction := true
         , atomic_in_progress := true
         , trace := s.trace ++ [Cmd.begin] }

/-- Modelled from the spec: owner-scope exit on normal completion (spec §4.2
exit step 1) — issue COMMIT, clear `atomic_in_progress`, and restore the
ambient isolation setting saved immediately before entry. -/
def commitExit (saved : Option String) (s : ConnState) : ConnState :=
  { s with committed := s.committed ++ s.pending
         , pending := []
         , inTransaction := false
         , atomic_in_progress := false
         , isolation := saved
         , trace := s.trace ++ [Cmd.commit] }

/-- Modelled from the spec: owner-scope exit on failure (spec §4.2 exit
step 1) — issue ROLLBACK, clear `atomic_in_progress`, restore the ambient
isolation setting; the triggering failure is re-raised by the caller of this
function unmodified. -/
def rollbackExit (saved : Option String) (s : ConnState) : ConnState :=
  { s with pending := []
         , inTransaction := false
         , atomic_in_progress := false
         , isolation := saved
         , trace := s.trace ++ [Cmd.rollback] }

/-- Modelled from the spec: big-step execution of a program on one
connection.  The second component is the failure propagating out (`none` on
normal completion).  An `atomic` scope is a participant when the wrapper's
flag is set or the engine already has an open transaction (spec §4.2 entry
step 4 and the tie-break policy of §4.2); a participant issues no engine
command and never mutates the flag.  Otherwise the scope is the owner: it
performs `atomicEntry`, runs the body, and finalises exactly once with
`commitExit`/`rollbackExit`, the saved isolation being the one immediately
before entry.  An insert outside any transaction is autocommitted by the
engine (spec §9 ambient autocommit). -/
def runAct : ConnState → Act → ConnState × Option Nat
  | s, Act.skip => (s, none)
  | s, Act.insert r =>
      (if s.inTransaction then { s with pending := s.pending ++ [r] }
       else { s with committed := s.committed ++ [r] }, none)
  | s, Act.raise e => (s, some e)
  | s, Act.seq a b =>
      match runAct s a with
      | (s1, none) => runAct s1 b
      | (s1, some e) => (s1, some e)
  | s, Act.atomic body =>
      if s.atomic_in_progress || s.inTransaction then
        runAct s body
      else
        match runAct (atomicEntry s) body with
        | (s2, none) => (commitExit s.isolation s2, none)
        | (s2, some e) => (rollbackExit s.isolation s2, some e)

/-- Modelled from the spec (§4.2 exit failure path and §7 `EngineFailure`):
owner-scope exit on failure when the engine itself may reject the ROLLBACK.
`rb = none` means the engine accepts it, giving exactly `rollbackExit`.
`rb = some f` means the engine rejects it with `EngineFailure f`: the
ROLLBACK was still issued (traced), the engine's own transaction state
(`pending`, `inTransaction`) stays as the rejection left it, the wrapper
still restores its flag and the ambient isolation, and the secondary failure
is reported (second component) while the original failure keeps priority for
the caller. -/
def rollbackExitE (rb : Option Nat) (saved : Option String) (s : ConnState) :
    ConnState × List Nat :=
  match rb with
  | none => (rollbackExit saved s, [])
  | some f =>
      ({ s with atomic_in_progress := false
              , isolation := saved
              , trace := s.trace ++ [Cmd.rollback] }, [f])

/-- Modelled from the spec: `runAct` extended with a fallible engine
rollback.  `rb` is the engine's behaviour on every ROLLBACK (`none` =
accepted, `some f` = rejected with `EngineFailure f`); the third component
collects the secondary failures reported along the run.  Everything else is
exactly `runAct`; only the owner's failure exit goes through
`rollbackExitE`, and the failure the caller observes stays the body's
original one in both cases. -/
def runActE (rb : Option Nat) : ConnState → Act → ConnState × Option Nat × List Nat
  | s, Act.skip => (s, none, [])
  | s, Act.insert r =>
      (if s.inTransaction then { s with pending := s.pending ++ [r] }
       else { s with committed := s.committed ++ [r] }, none, [])
  | s, Act.raise e => (s, some e, [])
  | s, Act.seq a b =>
      match runActE rb s a with
      | (s1, none, w1) =>
          match runActE rb s1 b with
          | (s2, r2, w2) => (s2, r2, w1 ++ w2)
      | (s1, some e, w1) => (s1, some e, w1)
  | s, Act.atomic body =>
      if s.atomic_in_progress || s.inTransaction then
        runActE rb s body
      else
        match runActE rb (atomicEntry s) body with
        | (s2, none, w) => (commitExit s.isolation s2, none, w)
        | (s2, some e, w) =>
            ((rollbackExitE rb s.isolation s2).1, some e,
             w ++ (rollbackExitE rb s.isolation s2).2)

/-- A program that raises no failure anywhere. -/
def noRaise : Act → Bool
  | Act.skip => true
  | Act.insert _ => true
  | Act.raise _ => false
  | Act.seq a b => noRaise a && noRaise b
  | Act.atomic body => noRaise body

/-- The rows a program inserts, in order. -/
def writes : Act → List Nat
  | Act.skip => []
  | Act.insert r => [r]
  | Act.raise _ => []
  | Act.seq a b => writes a ++ writes b
  | Act.atomic body => writes body

/-- Nesting of `N` lexical atomic scopes around a body. -/
def nest : Nat → Act → Act
  | 0, b => b
  | n + 1, b => Act.atomic (nest n b)

theorem noRaise_nest (n : Nat) (b : Act) : noRaise (nest n b) = noRaise b := by
  induction n with
  | zero => rfl
  | succ n ih => simpa [nest, noRaise] using ih

theorem writes_nest (n : Nat) (b : Act) : writes (nest n b) = writes b := by
  induction n with
  | zero => rfl
  | succ n ih => simpa [nest, writes] using ih

/-- Inside an open transaction, a failure-free program only accumulates its
writes into the pending set: every nested scope is a participant and issues
no engine command, mutates no flag, and commits nothing. -/
theorem participant_run (b : Act) :
    ∀ s : ConnState, s.inTransaction = true → noRaise b = true →
      runAct s b = ({ s with pending := s.pending ++ writes b }, none) := by
  induction b with
  | skip => intro s ht _; simp [runAct, writes]
  | insert r => intro s ht _; simp [runAct, ht, writes]
  | raise e => intro s _ hn; simp [noRaise] at hn
  | seq a b iha ihb =>
      intro s ht hn
      simp [noRaise, Bool.and_eq_true] at hn
      have h1 := iha s ht hn.1
      have h2 := ihb { s with pending := s.pending ++ writes a } ht hn.2
      simp [runAct, h1, h2, writes, List.append_assoc]
  | atomic body ih =>
      intro s ht hn
      simp [noRaise] at hn
      have h := ih s ht hn
      simp [runAct, ht, h, writes]

/-- Inside an open transaction, any program (failing or not) leaves the
engine-command trace, the committed rows, the flag, the isolation setting and
the open-transaction signal untouched: only pending rows may change. -/
theorem in_txn_frame (b : Act) :
    ∀ s : ConnState, s.inTransaction = true →
      (runAct s b).1.trace = s.trace ∧
      (runAct s b).1.committed = s.committed ∧
      (runAct s b).1.inTransaction = true ∧
      (runAct s b).1.atomic_in_progress = s.atomic_in_progress ∧
      (runAct s b).1.isolation = s.isolation := by
  induction b with
  | skip => intro s ht; simp [runAct, ht]
  | insert r => intro s ht; simp [runAct, ht]
  | raise e => intro s ht; simp [runAct, ht]
  | seq a b iha ihb =>
      intro s ht
      rcases h1 : runAct s a with ⟨s1, e1⟩
      have ha := iha s ht
      rw [h1] at ha
      cases e1 with
      | none =>
          have hb := ihb s1 ha.2.2.1
          simp only [runAct, h1]
          exact ⟨hb.1.trans ha.1, hb.2.1.trans ha.2.1, hb.2.2.1,
                 hb.2.2.2.1.trans ha.2.2.2.1, hb.2.2.2.2.trans ha.2.2.2.2⟩
      | some e => simpa [runAct, h1] using ha
  | atomic body ih =>
      intro s ht
      have h := ih s ht
      simp only [runAct, ht, Bool.or_true, if_pos trivial]
      simpa using h

/-- Inside an open transaction the fallible-rollback semantics agrees with
the base one and reports nothing, whatever the engine would do to a
ROLLBACK: every nested scope is a participant, so no rollback (and no engine
finalisation at all) is ever attempted there. -/
theorem in_txn_agreeE (rb : Option Nat) (b : Act) :
    ∀ s : ConnState, s.inTransaction = true →
      runActE rb s b = ((runAct s b).1, (runAct s b).2, []) := by
  induction b with
  | skip => intro s ht; simp [runActE, runAct]
  | insert r => intro s ht; simp [runActE, runAct]
  | raise e => intro s ht; simp [runActE, runAct]
  | seq a b iha ihb =>
      intro s ht
      have ha := iha s ht
      have hframe := in_txn_frame a s ht
      rcases h1 : runAct s a with ⟨s1, e1⟩
      rw [h1] at ha hframe
      cases e1 with
      | none =>
          have hb := ihb s1 hframe.2.2.1
          simp [runActE, runAct, ha, h1, hb]
      | some e => simp [runActE, runAct, ha, h1]
  | atomic body ih =>
      intro s ht
      have h := ih s ht
      simp [runActE, runAct, ht, h]

/-- Once the wrapper's flag is set, no program unsets it: nested scopes are
participants and never mutate the flag, so the flag is true at every point
strictly between an owner scope's entry and its exit. -/
theorem flag_stays (b : Act) :
    ∀ s : ConnState, s.atomic_in_progress = true →
      (runAct s b).1.atomic_in_progress = true := by
  induction b with
  | skip => intro s hf; simpa [runAct] using hf
  | insert r => intro s hf; by_cases ht : s.inTransaction <;> simp [runAct, ht, hf]
  | raise e => intro s hf; simpa [runAct] using hf
  | seq a b iha ihb =>
      intro s hf
      rcases h1 : runAct s a with ⟨s1, e1⟩
      have ha := iha s hf
      rw [h1] at ha
      cases e1 with
      | none => simpa [runAct, h1] using ihb s1 ha
      | some e => simpa [runAct, h1] using ha
  | atomic body ih =>
      intro s hf
      simpa [runAct, hf] using ih s hf

/-- Once the wrapper's flag is set, no program changes the ambient isolation
setting: only an owner entry touches it, and with the flag set every nested
scope is a participant. -/
theorem iso_stays (b : Act) :
    ∀ s : ConnState, s.atomic_in_progress = true →
      (runAct s b).1.isolation = s.isolation := by
  induction b with
  | skip => intro s _; simp [runAct]
  | insert r => intro s _; by_cases ht : s.inTransaction <;> simp [runAct, ht]
  | raise e => intro s _; simp [runAct]
  | seq a b iha ihb =>
      intro s hf
      rcases h1 : runAct s a with ⟨s1, e1⟩
      have hfa := flag_stays a s hf
      rw [h1] at hfa
      have ha := iha s hf
      rw [h1] at ha
      cases e1 with
      | none =>
          have hb := ihb s1 hfa
          simp only [runAct, h1]
          exact hb.trans ha
      | some e => simpa [runAct, h1] using ha
  | atomic body ih =>
      intro s hf
      simpa [runAct, hf] using ih s hf

/-- Invariant I1 of the spec: whenever the wrapper's bookkeeping flag is set,
the engine's live transaction signal is set too. -/
def InvI1 (s : ConnState) : Prop :=
  s.atomic_in_progress = true → s.inTransaction = true

/-- Invariant I1 is preserved by every program step: inserts and failures do
not touch the flag or the transaction signal, an owner entry sets both, both
owner exits clear the flag, and participants mutate neither. -/
theorem invI1_preserved (b : Act) :
    ∀ s : ConnState, InvI1 s → InvI1 (runAct s b).1 := by
  induction b with
  | skip => intro s h; simpa [runAct] using h
  | insert r =>
      intro s h
      by_cases ht : s.inTransaction
      · intro hf
        simp only [runAct, if_pos ht]
        exact ht
      · intro hf
        simp only [runAct, if_neg ht] at hf
        exact absurd (h hf) ht
  | raise e => intro s h; simpa [runAct] using h
  | seq a b iha ihb =>
      intro s h
      rcases h1 : runAct s a with ⟨s1, e1⟩
      have ha := iha s h
      rw [h1] at ha
      cases e1 with
      | none => simpa [runAct, h1] using ihb s1 ha
      | some e => simpa [runAct, h1] using ha
  | atomic body ih =>
      intro s h
      by_cases hp : s.atomic_in_progress || s.inTransaction
      · simpa [runAct, hp] using ih s h
      · rcases h2 : runAct (atomicEntry s) body with ⟨s2, e2⟩
        cases e2 with
        | none =>
            simp [runAct, hp, h2, commitExit, InvI1]
        | some e =>
            simp [runAct, hp, h2, rollbackExit, InvI1]

/-- Modelled from the spec: the heap of `atomic_in_progress` bookkeeping
cells, one per wrapped connection family; handles index into it. -/
structure FlagStore where
  cells : List Bool
deriving DecidableEq, Repr

/-- Modelled from the spec: a `ConnectionPlus` handle — a connection
annotated with (a reference to) its `atomic_in_progress` bookkeeping cell. -/
structure ConnectionPlus where
  cell : Nat
deriving DecidableEq, Repr

/-- A connection as accepted by `make_plus_connection_from`: either a bare
`sqlite3.Connection` or an already-augmented `ConnectionPlus`. -/
inductive SomeConn where
  | raw
  | plus (c : ConnectionPlus)
deriving DecidableEq, Repr

/-- Modelled from the spec (§4.1 `wrap`): augmenting an already-augmented
connection returns a handle sharing its bookkeeping cell (no new cell);
augmenting a raw connection allocates a fresh cell initialised to `false`. -/
def make_plus_connection_from : SomeConn → FlagStore → ConnectionPlus × FlagStore
  | SomeConn.plus c, st => (c, st)
  | SomeConn.raw, st => (⟨st.cells.length⟩, ⟨st.cells ++ [false]⟩)

/-- Reading the `atomic_in_progress` flag through a handle. -/
def readFlag (st : FlagStore) (c : ConnectionPlus) : Bool :=
  st.cells.getD c.cell false

/-- Writing the `atomic_in_progress` flag through a handle. -/
def writeFlag (st : FlagStore) (c : ConnectionPlus) (b : Bool) : FlagStore :=
  ⟨st.cells.set c.cell b⟩

/-- A concrete idle connection (ambient sqlite isolation setting `""`). -/
def idle0 : ConnState :=
  { atomic_in_progress := false
  , isolation := some ""
  , inTransaction := false
  , committed := []
  , pending := []
  , trace := [] }

/-- C1: for every lexical nesting of atomic scopes of depth `N ≥ 1` on one
idle connection whose bodies complete without failure, the run completes
without failure, exactly one BEGIN and exactly one COMMIT are appended to the
engine trace (only the outermost scope begins and commits), the written rows
become visible to a fresh independent connection exactly at outermost exit,
and strictly inside the outermost scope (after its entry, having run the
inner nesting) the rows are not yet visible to a fresh connection but are
already visible through the same connection. -/
theorem atomic_nesting_single_begin_commit
    (s : ConnState) (b : Act) (N : Nat)
    (hidle : Idle s) (hb : noRaise b = true) (hN : 1 ≤ N) :
    (runAct s (nest N b)).2 = none
    ∧ (runAct s (nest N b)).1.trace = s.trace ++ [Cmd.begin, Cmd.commit]
    ∧ visible_to_fresh (runAct s (nest N b)).1 = s.committed ++ writes b
    ∧ visible_to_fresh (runAct (atomicEntry s) (nest (N - 1) b)).1 = s.committed
    ∧ visible_same_conn (runAct (atomicEntry s) (nest (N - 1) b)).1
        = s.committed ++ writes b := by
  obtain ⟨hf, ht, hp⟩ := hidle
  cases N with
  | zero => omega
  | succ M =>
      have hmid := participant_run (nest M b) (atomicEntry s) rfl
        ((noRaise_nest M b).trans hb)
      have houter :
          runAct s (nest (M + 1) b)
            = (commitExit s.isolation
                { atomicEntry s with
                    pending := (atomicEntry s).pending ++ writes (nest M b) },
               none) := by
        simp [nest, runAct, hf, ht, hmid]
      refine ⟨?_, ?_, ?_, ?_, ?_⟩
      · rw [houter]
      · rw [houter]
        simp [commitExit, atomicEntry, List.append_assoc]
      · rw [houter]
        simp [visible_to_fresh, commitExit, atomicEntry, hp, writes_nest]
      · rw [Nat.succ_sub_one, hmid]
        simp [visible_to_fresh, atomicEntry]
      · rw [Nat.succ_sub_one, hmid]
        simp [visible_same_conn, atomicEntry, hp, writes_nest]

/-- Instantiation of `atomic_nesting_single_begin_commit` at a concrete idle
connection, a body of one insert, and depth 2. -/
theorem atomic_nesting_single_begin_commit_inst :
    Idle idle0 ∧ noRaise (Act.insert 7) = true ∧ 1 ≤ 2
    ∧ (runAct idle0 (nest 2 (Act.insert 7))).1.trace
        = idle0.trace ++ [Cmd.begin, Cmd.commit]
    ∧ visible_to_fresh (runAct idle0 (nest 2 (Act.insert 7))).1 = [7] :=
  ⟨⟨rfl, rfl, rfl⟩, rfl, by omega,
   (atomic_nesting_single_begin_commit idle0 (Act.insert 7) 2
      ⟨rfl, rfl, rfl⟩ rfl (by omega)).2.1,
   (atomic_nesting_single_begin_commit idle0 (Act.insert 7) 2
      ⟨rfl, rfl, rfl⟩ rfl (by omega)).2.2.1⟩

/-- C2: for every atomic scope on an idle connection whose body (itself an
arbitrary nesting) raises failure `e`, the run appends exactly one BEGIN and
exactly one ROLLBACK to the engine trace (no COMMIT, and only the owner rolls
back), the committed rows — what an independent connection sees — are exactly
the pre-entry ones, the connection returns to its pre-entry state, and the
original failure propagates to the caller unmodified.  Moreover, when the
engine itself rejects that ROLLBACK with a secondary failure `f`, the
secondary failure is reported but is subordinate to the original failure's
identity: the caller still observes `e`, nothing becomes visible to
independent connections, the single ROLLBACK attempt is still the only
finalisation in the trace, and the wrapper still restores its flag and the
ambient isolation setting. -/
theorem atomic_failure_single_rollback
    (s : ConnState) (b : Act) (e f : Nat)
    (hidle : Idle s) (hfail : (runAct (atomicEntry s) b).2 = some e) :
    runAct s (Act.atomic b)
      = ({ s with trace := s.trace ++ [Cmd.begin, Cmd.rollback] }, some e)
    ∧ runActE none s (Act.atomic b)
      = ({ s with trace := s.trace ++ [Cmd.begin, Cmd.rollback] }, some e, [])
    ∧ (runActE (some f) s (Act.atomic b)).2.1 = some e
    ∧ (runActE (some f) s (Act.atomic b)).2.2 = [f]
    ∧ (runActE (some f) s (Act.atomic b)).1.committed = s.committed
    ∧ (runActE (some f) s (Act.atomic b)).1.trace
        = s.trace ++ [Cmd.begin, Cmd.rollback]
    ∧ (runActE (some f) s (Act.atomic b)).1.atomic_in_progress = false
    ∧ (runActE (some f) s (Act.atomic b)).1.isolation = s.isolation := by
  obtain ⟨hf, ht, hp⟩ := hidle
  have hframe := in_txn_frame b (atomicEntry s) rfl
  have hagree0 := in_txn_agreeE none b (atomicEntry s) rfl
  have hagreeF := in_txn_agreeE (some f) b (atomicEntry s) rfl
  rcases h2 : runAct (atomicEntry s) b with ⟨s2, e2⟩
  rw [h2] at hframe hfail hagree0 hagreeF
  have he2 : e2 = some e := hfail
  subst he2
  obtain ⟨htr, hco, -, -, -⟩ := hframe
  have hstate : rollbackExit s.isolation s2
      = { s with trace := s.trace ++ [Cmd.begin, Cmd.rollback] } := by
    refine ConnState.ext ?_ ?_ ?_ ?_ ?_ ?_
    · simp [rollbackExit, hf]
    · simp [rollbackExit]
    · simp [rollbackExit, ht]
    · simpa [rollbackExit, atomicEntry] using hco
    · simp [rollbackExit, hp]
    · rw [show (rollbackExit s.isolation s2).trace
            = s2.trace ++ [Cmd.rollback] from rfl, htr]
      simp [atomicEntry, List.append_assoc]
  have hrun : runAct s (Act.atomic b) = (rollbackExit s.isolation s2, some e) := by
    simp [runAct, hf, ht, h2]
  have hrun0 : runActE none s (Act.atomic b)
      = (rollbackExit s.isolation s2, some e, []) := by
    simp [runActE, hf, ht, hagree0, rollbackExitE]
  have hrunF : runActE (some f) s (Act.atomic b)
      = ({ s2 with atomic_in_progress := false
                 , isolation := s.isolation
                 , trace := s2.trace ++ [Cmd.rollback] }, some e, [f]) := by
    simp [runActE, hf, ht, hagreeF, rollbackExitE]
  refine ⟨by rw [hrun, hstate], by rw [hrun0, hstate], ?_, ?_, ?_, ?_, ?_, ?_⟩
  · rw [hrunF]
  · rw [hrunF]
  · rw [hrunF]; simpa [atomicEntry] using hco
  · rw [hrunF]
    simp only
    rw [htr]
    simp [atomicEntry, List.append_assoc]
  · rw [hrunF]
  · rw [hrunF]

/-- Instantiation of `atomic_failure_single_rollback` at a concrete idle
connection and a body that inserts a row and then, in a nested participant
scope, raises failure 3; the engine is also made to reject the rollback with
secondary failure 7, which is reported while the caller still observes 3. -/
theorem atomic_failure_single_rollback_inst :
    Idle idle0
    ∧ (runAct (atomicEntry idle0)
        (Act.seq (Act.insert 5) (Act.atomic (Act.raise 3)))).2 = some 3
    ∧ runAct idle0
        (Act.atomic (Act.seq (Act.insert 5) (Act.atomic (Act.raise 3))))
        = ({ idle0 with trace := [Cmd.begin, Cmd.rollback] }, some 3)
    ∧ (runActE (some 7) idle0
        (Act.atomic (Act.seq (Act.insert 5) (Act.atomic (Act.raise 3))))).2.1
        = some 3
    ∧ (runActE (some 7) idle0
        (Act.atomic (Act.seq (Act.insert 5) (Act.atomic (Act.raise 3))))).2.2
        = [7] :=
  ⟨⟨rfl, rfl, rfl⟩, by decide,
   (atomic_failure_single_rollback idle0
     (Act.seq (Act.insert 5) (Act.atomic (Act.raise 3))) 3 7
     ⟨rfl, rfl, rfl⟩ (by decide)).1,
   (atomic_failure_single_rollback idle0
     (Act.seq (Act.insert 5) (Act.atomic (Act.raise 3))) 3 7
     ⟨rfl, rfl, rfl⟩ (by decide)).2.2.1,
   (atomic_failure_single_rollback idle0
     (Act.seq (Act.insert 5) (Act.atomic (Act.raise 3))) 3 7
     ⟨rfl, rfl, rfl⟩ (by decide)).2.2.2.1⟩

/-- C4: for a single atomic scope entered on an idle connection, the
`atomic_in_progress` flag is false before entry, true immediately after entry
and at every point strictly between entry and exit (after any program run
from the entered state), and false again after exit, on both exit paths. -/
theorem atomic_flag_lifecycle
    (s : ConnState) (b bmid : Act) (hidle : Idle s) :
    s.atomic_in_progress = false
    ∧ (atomicEntry s).atomic_in_progress = true
    ∧ (runAct (atomicEntry s) bmid).1.atomic_in_progress = true
    ∧ (runAct s (Act.atomic b)).1.atomic_in_progress = false := by
  obtain ⟨hf, ht, -⟩ := hidle
  refine ⟨hf, rfl, flag_stays bmid (atomicEntry s) rfl, ?_⟩
  rcases h2 : runAct (atomicEntry s) b with ⟨s2, e2⟩
  cases e2 with
  | none => simp [runAct, hf, ht, h2, commitExit]
  | some e => simp [runAct, hf, ht, h2, rollbackExit]

/-- Instantiation of `atomic_flag_lifecycle` at a concrete idle connection
with a one-insert body, observing the flag mid-scope after that insert. -/
theorem atomic_flag_lifecycle_inst :
    Idle idle0
    ∧ idle0.atomic_in_progress = false
    ∧ (atomicEntry idle0).atomic_in_progress = true
    ∧ (runAct (atomicEntry idle0) (Act.insert 4)).1.atomic_in_progress = true
    ∧ (runAct idle0 (Act.atomic (Act.insert 4))).1.atomic_in_progress = false :=
  ⟨⟨rfl, rfl, rfl⟩,
   (atomic_flag_lifecycle idle0 (Act.insert 4) (Act.insert 4)
      ⟨rfl, rfl, rfl⟩).1,
   (atomic_flag_lifecycle idle0 (Act.insert 4) (Act.insert 4)
      ⟨rfl, rfl, rfl⟩).2.1,
   (atomic_flag_lifecycle idle0 (Act.insert 4) (Act.insert 4)
      ⟨rfl, rfl, rfl⟩).2.2.1,
   (atomic_flag_lifecycle idle0 (Act.insert 4) (Act.insert 4)
      ⟨rfl, rfl, rfl⟩).2.2.2⟩

/-- C5: a connection that arrives at scope entry already inside an
engine-level transaction opened outside the wrapper (`inTransaction = true`
while `atomic_in_progress = false`) makes the scope a participant: running
the scope is running its body, and the scope issues no BEGIN, COMMIT or
ROLLBACK, commits nothing to independent-connection visibility, leaves the
transaction it did not open still open, and leaves the isolation setting
untouched — on every exit path. -/
theorem atomic_external_transaction_participant
    (s : ConnState) (b : Act)
    (hf : s.atomic_in_progress = false) (ht : s.inTransaction = true) :
    runAct s (Act.atomic b) = runAct s b
    ∧ (runAct s (Act.atomic b)).1.trace = s.trace
    ∧ (runAct s (Act.atomic b)).1.committed = s.committed
    ∧ (runAct s (Act.atomic b)).1.inTransaction = true
    ∧ (runAct s (Act.atomic b)).1.isolation = s.isolation := by
  have hpart : runAct s (Act.atomic b) = runAct s b := by
    simp [runAct, ht]
  have hframe := in_txn_frame b s ht
  rw [hpart]
  exact ⟨rfl, hframe.1, hframe.2.1, hframe.2.2.1, hframe.2.2.2.2⟩

/-- Instantiation of `atomic_external_transaction_participant` at a connection
with a manually opened transaction and a body that inserts and raises. -/
theorem atomic_external_transaction_participant_inst :
    runAct { idle0 with inTransaction := true }
        (Act.atomic (Act.seq (Act.insert 9) (Act.raise 1)))
      = runAct { idle0 with inTransaction := true }
          (Act.seq (Act.insert 9) (Act.raise 1))
    ∧ (runAct { idle0 with inTransaction := true }
        (Act.atomic (Act.seq (Act.insert 9) (Act.raise 1)))).1.trace = [] :=
  ⟨(atomic_external_transaction_participant { idle0 with inTransaction := true }
      (Act.seq (Act.insert 9) (Act.raise 1)) rfl rfl).1,
   (atomic_external_transaction_participant { idle0 with inTransaction := true }
      (Act.seq (Act.insert 9) (Act.raise 1)) rfl rfl).2.1⟩

/-- C7: invariant I1 (`atomic_in_progress = true → inTransaction = true`)
holds in every state reachable from an I1-state by running any program
(covering scope entries and exits at any nesting), holds at the intermediate
state an owner entry produces, and holds for a freshly wrapped raw
connection, whose flag cell is allocated false. -/
theorem invariant_I1_reachable
    (s : ConnState) (b : Act) (st : FlagStore) (h : InvI1 s) :
    InvI1 (runAct s b).1
    ∧ InvI1 (atomicEntry s)
    ∧ readFlag (make_plus_connection_from SomeConn.raw st).2
        (make_plus_connection_from SomeConn.raw st).1 = false := by
  refine ⟨invI1_preserved b s h, fun _ => rfl, ?_⟩
  simp [make_plus_connection_from, readFlag]

/-- Instantiation of `invariant_I1_reachable` at a concrete idle connection,
a depth-2 nesting with a failing inner body, and an empty flag store. -/
theorem invariant_I1_reachable_inst :
    InvI1 idle0
    ∧ InvI1 (runAct idle0
        (Act.atomic (Act.seq (Act.insert 2) (Act.atomic (Act.raise 3))))).1
    ∧ readFlag (make_plus_connection_from SomeConn.raw ⟨[]⟩).2
        (make_plus_connection_from SomeConn.raw ⟨[]⟩).1 = false :=
  ⟨fun h => by simp [idle0] at h,
   (invariant_I1_reachable idle0
      (Act.atomic (Act.seq (Act.insert 2) (Act.atomic (Act.raise 3)))) ⟨[]⟩
      (fun h => by simp [idle0] at h)).1,
   (invariant_I1_reachable idle0
      (Act.atomic (Act.seq (Act.insert 2) (Act.atomic (Act.raise 3)))) ⟨[]⟩
      (fun h => by simp [idle0] at h)).2.2⟩

/-- C6 counterexample: the claim that every observer sees the same
`isolation_mode` before entry, while the transaction is active inside the
scope, and after exit is false.  On a connection whose ambient isolation
setting is `""` (the sqlite default the tests start from), the state in which
the owner scope's body runs — produced by the scope's own entry — shows
isolation `none`, not the pre-entry `some ""`: the owner suppresses the
ambient autocommit mode for the duration of the transaction. -/
theorem isolation_mode_unchanged_cex :
    (runAct (atomicEntry idle0) Act.skip).1.isolation ≠ idle0.isolation := by
  decide

/-- C6 amended: the ambient isolation setting is restored to its exact
pre-entry value after the scope exits, on both exit paths; participants
(scopes entered with the flag already set) never change it at any point; but
while the owner's transaction is active inside the scope the setting reads
`none` (ambient autocommit suppressed), not the pre-entry value. -/
theorem isolation_mode_restored
    (s : ConnState) (b bmid : Act) (hidle : Idle s) :
    (runAct s (Act.atomic b)).1.isolation = s.isolation
    ∧ (atomicEntry s).isolation = none
    ∧ (s.atomic_in_progress = true →
        (runAct s bmid).1.isolation = s.isolation) := by
  obtain ⟨hf, ht, -⟩ := hidle
  refine ⟨?_, rfl, fun hflag => iso_stays bmid s hflag⟩
  rcases h2 : runAct (atomicEntry s) b with ⟨s2, e2⟩
  cases e2 with
  | none => simp [runAct, hf, ht, h2, commitExit]
  | some e => simp [runAct, hf, ht, h2, rollbackExit]

/-- Instantiation of `isolation_mode_restored` at a concrete idle connection
with ambient isolation `""` and a failing body. -/
theorem isolation_mode_restored_inst :
    Idle idle0
    ∧ (runAct idle0 (Act.atomic (Act.raise 2))).1.isolation = idle0.isolation
    ∧ (atomicEntry idle0).isolation = none :=
  ⟨⟨rfl, rfl, rfl⟩,
   (isolation_mode_restored idle0 (Act.raise 2) Act.skip ⟨rfl, rfl, rfl⟩).1,
   (isolation_mode_restored idle0 (Act.raise 2) Act.skip ⟨rfl, rfl, rfl⟩).2.1⟩

/-- C3: wrapping is idempotent and aliasing.  Wrapping an already-augmented
handle returns the very same handle over the unchanged store — so a flag
mutation through either handle is observed through the other — while
wrapping a raw connection allocates a fresh cell, initialised to false,
distinct from every existing handle's cell and leaving every existing
handle's flag unchanged. -/
theorem make_plus_connection_from_aliasing
    (st : FlagStore) (c : ConnectionPlus) (v : Bool)
    (hc : c.cell < st.cells.length) :
    (make_plus_connection_from (SomeConn.plus c) st).1 = c
    ∧ (make_plus_connection_from (SomeConn.plus c) st).2 = st
    ∧ readFlag (writeFlag st c v)
        (make_plus_connection_from (SomeConn.plus c) st).1 = v
    ∧ readFlag (writeFlag st (make_plus_connection_from (SomeConn.plus c) st).1 v)
        c = v
    ∧ readFlag (make_plus_connection_from SomeConn.raw st).2
        (make_plus_connection_from SomeConn.raw st).1 = false
    ∧ (make_plus_connection_from SomeConn.raw st).1.cell ≠ c.cell
    ∧ readFlag (make_plus_connection_from SomeConn.raw st).2 c
        = readFlag st c := by
  have hset : readFlag (writeFlag st c v) c = v := by
    simp [readFlag, writeFlag, List.getD, List.getElem?_set_self, hc]
  refine ⟨rfl, rfl, hset, hset, ?_, ?_, ?_⟩
  · simp [make_plus_connection_from, readFlag]
  · simp [make_plus_connection_from]
    omega
  · simp [make_plus_connection_from, readFlag, List.getD,
          List.getElem?_append_left hc]

/-- Instantiation of `make_plus_connection_from_aliasing` at a one-cell store
and its handle, mutating the shared flag to true. -/
theorem make_plus_connection_from_aliasing_inst :
    (0 : Nat) < (FlagStore.mk [false]).cells.length
    ∧ (make_plus_connection_from (SomeConn.plus ⟨0⟩) (FlagStore.mk [false])).1
        = ⟨0⟩
    ∧ readFlag (writeFlag (FlagStore.mk [false]) ⟨0⟩ true)
        (make_plus_connection_from (SomeConn.plus ⟨0⟩) (FlagStore.mk [false])).1
        = true :=
  ⟨by decide,
   (make_plus_connection_from_aliasing (FlagStore.mk [false]) ⟨0⟩ true
      (by decide)).1,
   (make_plus_connection_from_aliasing (FlagStore.mk [false]) ⟨0⟩ true
      (by decide)).2.2.1⟩

/-! Embedding of `qcodes/instrument_drivers/Keysight/keysight_34980a.py`.
The VISA transport is abstracted as a response function `io : String → String`
(what `super().ask` returns for each query); the commands sent over it are
recorded in an explicit log. -/

/-- A command sent over the VISA transport: a fire-and-forget `write` or a
query `ask`. -/
inductive VisaOp where
  | write (cmd : String)
  | ask (cmd : String)
deriving DecidableEq, Repr

/-- Sending a query through the base class (`super().ask`): returns the
transport's response and logs the query. -/
def superAsk (io : String → String) (log : List VisaOp) (cmd : String) :
    String × List VisaOp :=
  (io cmd, log ++ [VisaOp.ask cmd])

/-- Sending a command through the base class (`super().write`): logs it. -/
def superWrite (log : List VisaOp) (cmd : String) : List VisaOp :=
  log ++ [VisaOp.write cmd]

/-- Digits-run extraction over a character list, accumulating the current run
(`re.findall` of one-or-more digits, each run read as a number). -/
def findNumsAux : List Char → List Char → List Nat
  | [], run =>
      if run.isEmpty then []
      else [(run.reverse).foldl (fun n c => 10 * n + (c.toNat - 48)) 0]
  | c :: cs, run =>
      if c.isDigit then findNumsAux cs (c :: run)
      else if run.isEmpty then findNumsAux cs []
      else (run.reverse).foldl (fun n c => 10 * n + (c.toNat - 48)) 0
             :: findNumsAux cs []

/-- All runs of digits in a string, as numbers, in order
(`re.findall` of one-or-more digits followed by `int` on each match). -/
def findNums (s : String) : List Nat := findNumsAux s.toList []

/-- `Keysight34980A.get_status`: query `*ESR?` (through the base class) and
return the first number found in the reply; `none` models the `IndexError`
the source raises when the reply holds no digits (`nums[0]`). -/
def get_status (io : String → String) (log : List VisaOp) :
    Option Nat × List VisaOp :=
  let r := superAsk io log "*ESR?"
  ((findNums r.1).head?, r.2)

/-- `Keysight34980A.clear_status`: write `*CLS` through the base class. -/
def clear_status (log : List VisaOp) : List VisaOp :=
  superWrite log "*CLS"

/-- `post_execution_status_poll` applied to a wrapped call `func`: clear the
status registers, run the call, poll the status byte, warn (boolean in the
result) when it is nonzero, and return the call's value unchanged.  `none`
models an exception escaping (only possible from the status-byte parse). -/
def post_execution_status_poll {α : Type}
    (io : String → String) (func : List VisaOp → α × List VisaOp)
    (log : List VisaOp) : Option (α × List VisaOp × Bool) :=
  let log1 := clear_status log
  let r := func log1
  let st := get_status io r.2
  match st.1 with
  | none => none
  | some stb => some (r.1, st.2, stb != 0)

/-- `Keysight34980A.ask`: `super().ask(cmd)` wrapped in
`post_execution_status_poll`. -/
def Keysight34980A_ask (io : String → String) (log : List VisaOp)
    (cmd : String) : Option (String × List VisaOp × Bool) :=
  post_execution_status_poll io (fun l => superAsk io l cmd) log

/-- `Keysight34980A.write`: `super().write(cmd)` wrapped in
`post_execution_status_poll`. -/
def Keysight34980A_write (io : String → String) (log : List VisaOp)
    (cmd : String) : Option (Unit × List VisaOp × Bool) :=
  post_execution_status_poll io (fun l => ((), superWrite l cmd)) log

/-- C8: every `Keysight34980A.ask`/`write` call clears the status registers
(`*CLS`) before forwarding the command, returns the wrapped call's value
unchanged whatever the status byte is, and completes without an exception
with a warning exactly when the polled status byte is nonzero. -/
theorem post_execution_status_poll_spec
    (io : String → String) (log : List VisaOp) (cmd : String) (stb : Nat)
    (hstb : (findNums (io "*ESR?")).head? = some stb) :
    Keysight34980A_ask io log cmd
      = some (io cmd,
              log ++ [VisaOp.write "*CLS", VisaOp.ask cmd, VisaOp.ask "*ESR?"],
              stb != 0)
    ∧ Keysight34980A_write io log cmd
      = some ((),
              log ++ [VisaOp.write "*CLS", VisaOp.write cmd, VisaOp.ask "*ESR?"],
              stb != 0) := by
  constructor <;>
    simp [Keysight34980A_ask, Keysight34980A_write, post_execution_status_poll,
          clear_status, get_status, superAsk, superWrite, hstb]

/-- Instantiation of `post_execution_status_poll_spec` at a transport whose
status byte reads 16 (an error): the reply is still returned unchanged and a
warning (not an exception) is produced. -/
theorem post_execution_status_poll_spec_inst :
    (findNums ((fun q => if q = "*ESR?" then "+16" else "reply") "*ESR?")).head?
      = some 16
    ∧ Keysight34980A_ask (fun q => if q = "*ESR?" then "+16" else "reply") []
        "ROUT:CLOSe? (@1203)"
      = some ("reply",
              [VisaOp.write "*CLS", VisaOp.ask "ROUT:CLOSe? (@1203)",
               VisaOp.ask "*ESR?"],
              true) :=
  ⟨by decide,
   by
     have h := (post_execution_status_poll_spec
        (fun q => if q = "*ESR?" then "+16" else "reply") []
        "ROUT:CLOSe? (@1203)" 16 (by decide)).1
     simpa using h⟩

/-- Validation test of `qcodes.utils.validators.Ints(min_value, max_value)`:
an integer passes exactly when it lies in the inclusive range. -/
def Ints_validate (lo hi v : Int) : Bool :=
  lo ≤ v && v ≤ hi

/-- `Keysight34980A.disconnect_all`: with no slot, write the bare open-all
command; with a slot, validate it against `Ints(1, total_slot)` (the driver
fixes `_total_slot = 8`) and only then write the per-slot command; a failed
validation raises (modelled as `Except.error`) and nothing is written. -/
def disconnect_all (slot : Option Int) : Except String (List VisaOp) :=
  match slot with
  | none => Except.ok [VisaOp.write "ROUT:OPEN:ALL"]
  | some s =>
      if Ints_validate 1 8 s then
        Except.ok [VisaOp.write ("ROUT:OPEN:ALL " ++ toString s)]
      else
        Except.error "validation failed"

/-- C9: `disconnect_all` with no slot writes the bare open-all command,
which opens every slot; with an integer slot it writes the per-slot command
exactly when `1 ≤ slot ≤ 8`; any slot outside that range fails validation
and no command at all is written to the instrument. -/
theorem disconnect_all_spec :
    disconnect_all none = Except.ok [VisaOp.write "ROUT:OPEN:ALL"]
    ∧ (∀ s : Int, 1 ≤ s → s ≤ 8 →
        disconnect_all (some s)
          = Except.ok [VisaOp.write ("ROUT:OPEN:ALL " ++ toString s)])
    ∧ (∀ s : Int, ¬(1 ≤ s ∧ s ≤ 8) →
        disconnect_all (some s) = Except.error "validation failed") := by
  refine ⟨rfl, ?_, ?_⟩
  · intro s h1 h8
    simp [disconnect_all, Ints_validate, h1, h8]
  · intro s h
    have : ¬(Ints_validate 1 8 s = true) := by
      simp [Ints_validate]
      intro h1
      rcases not_and_or.mp h with h' | h'
      · omega
      · omega
    simp [disconnect_all, this]

/-- Instantiation of `disconnect_all_spec` at slot 3 (valid, command written)
and slot 9 (out of range, validation error, nothing written). -/
theorem disconnect_all_spec_inst :
    disconnect_all (some 3)
      = Except.ok [VisaOp.write ("ROUT:OPEN:ALL " ++ toString (3 : Int))]
    ∧ disconnect_all (some 9) = Except.error "validation failed" :=
  ⟨disconnect_all_spec.2.1 3 (by decide) (by decide),
   disconnect_all_spec.2.2 9 (by decide)⟩

/-! Embedding of `RohdeSchwarz_SMBV100A.write_file` from
`qcodes/instrument_drivers/rohde_schwarz/SMBV100A.py`.  Sample values are
modelled as rationals.  The per-sample encoder `DACl`, called once per
sample in the waveform join at line 82, is an unbound name: it is defined
nowhere in the module, not imported, and not a builtin — so that join raises
`NameError` as soon as it evaluates the encoder, i.e. for every nonempty
`I_list`, and `write_file` then writes nothing.  The Q-list normalisation of
lines 74-77 runs before that point and is embedded below. -/

/-- The source's padding loop,
`while len(Q_list) < len(I_list): Q_list.append(I_list[len(Q_list)])`:
as long as `Q_list` is shorter, append the I value at the first missing
index. -/
def padLoop (I_list Q_list : List ℚ) : List ℚ :=
  if Q_list.length < I_list.length then
    padLoop I_list (Q_list ++ [I_list.getD Q_list.length 0])
  else Q_list
termination_by I_list.length - Q_list.length
decreasing_by simp only [List.length_append, List.length_cons,
  List.length_nil]; omega

/-- The loop mutates the caller's `Q_list` in place (the later truncation
only rebinds the local name), so this is also the list the caller holds
after `write_file` returns. -/
def write_file_caller_Q (I_list Q_list : List ℚ) : List ℚ :=
  padLoop I_list Q_list

/-- The Q list `write_file` actually encodes: the padded list, truncated to
`len(I_list)` when it is longer (`Q_list = Q_list[:len(I_list)]`). -/
def write_file_Q (I_list Q_list : List ℚ) : List ℚ :=
  let q := padLoop I_list Q_list
  if I_list.length < q.length then q.take I_list.length else q

/-- The binding the name `DACl` resolves to when the waveform join at
SMBV100A.py line 82 evaluates it: there is none anywhere in the repository
(no definition in the module, no import, no builtin), so the lookup fails. -/
def DACl_binding : Option (ℚ → String) := none

/-- Execution of `write_file` up to and including the waveform join of line
82, abstracting the file payload to what the claim speaks about: the number
of IQ sample pairs encoded and the SAMPLES tag entry
(`"\x7bSAMPLES: %d\x7d" % len(I_list)`).  Lines 74-77 normalise the Q list
first.  The join `DACl(I_list[i]) + DACl(Q_list[i]) for i in range(len(I_list))`
then looks up `DACl` once per sample: with a nonempty `I_list` the unbound
name raises `NameError` and nothing is written; with an empty `I_list` the
join evaluates nothing and the (empty) file is written with zero pairs. -/
def write_file_exec (I_list : List ℚ) : Except String (Nat × String) :=
  match DACl_binding, I_list.length with
  | _, 0 => Except.ok (0, "\x7bSAMPLES: 0\x7d")
  | none, _ + 1 => Except.error "NameError: name DACl is not defined"
  | some _, n + 1 =>
      Except.ok (n + 1, "\x7bSAMPLES: " ++ toString (n + 1) ++ "\x7d")

theorem padLoop_eq (I_list : List ℚ) :
    ∀ n Q_list, I_list.length - Q_list.length = n →
      padLoop I_list Q_list = Q_list ++ I_list.drop Q_list.length := by
  intro n
  induction n with
  | zero =>
      intro Q h
      have hle : I_list.length ≤ Q.length := by omega
      rw [padLoop]
      simp [Nat.not_lt.mpr hle, List.drop_eq_nil_of_le hle]
  | succ n ih =>
      intro Q h
      have hlt : Q.length < I_list.length := by omega
      rw [padLoop, if_pos hlt]
      rw [ih (Q ++ [I_list.getD Q.length 0]) (by simp; omega)]
      have hd : I_list.drop Q.length
          = I_list.getD Q.length 0 :: I_list.drop (Q.length + 1) := by
        rw [List.getD_eq_getElem I_list 0 hlt]
        exact List.drop_eq_getElem_cons hlt
      simp [hd]

/-- The Q-list normalisation of lines 74-77 (the part of `write_file` that
does execute before the waveform join): the caller's `Q_list` is padded in
place with the I value at every missing index exactly when it is shorter
(truncation only rebinds the local name), and the encoded Q list has exactly
`len(I_list)` entries. -/
theorem write_file_Q_normalised (I_list Q_list : List ℚ) :
    write_file_caller_Q I_list Q_list
      = (if Q_list.length < I_list.length
         then Q_list ++ I_list.drop Q_list.length else Q_list)
    ∧ (write_file_Q I_list Q_list).length = I_list.length := by
  have hpad := padLoop_eq I_list (I_list.length - Q_list.length) Q_list rfl
  constructor
  · rw [write_file_caller_Q, hpad]
    by_cases h : Q_list.length < I_list.length
    · simp [h]
    · simp [h, List.drop_eq_nil_of_le (by omega : I_list.length ≤ Q_list.length)]
  · rw [write_file_Q]
    by_cases h : Q_list.length < I_list.length
    · have hplen : (padLoop I_list Q_list).length = I_list.length := by
        rw [hpad]; simp; omega
      simp only [hplen, lt_irrefl, if_neg (lt_irrefl I_list.length)]
      exact hplen
    · have hplen : padLoop I_list Q_list = Q_list := by
        rw [hpad, List.drop_eq_nil_of_le (by omega), List.append_nil]
      rw [hplen]
      by_cases h2 : I_list.length < Q_list.length
      · simp [h2]; omega
      · simp [h2]; omega

/-- C10: the claim fails on the code because `write_file` can never produce
the file it speaks about.  The encoder name `DACl` used at SMBV100A.py line
82 has no binding anywhere in the repository, so for every nonempty `I_list`
the waveform join raises `NameError` and no file is written — evaluated here
at the failing input `I_list = [1], Q_list = []`, where the in-place padding
of lines 74-77 has already run (the caller's list reads `[1]`) before the
crash.  Only the degenerate empty `I_list` ever writes a file, with zero
sample pairs and tag `SAMPLES: 0`. -/
theorem write_file_DACl_undefined :
    DACl_binding = none
    ∧ write_file_exec [(1 : ℚ)]
        = Except.error "NameError: name DACl is not defined"
    ∧ write_file_caller_Q [(1 : ℚ)] [] = [(1 : ℚ)]
    ∧ write_file_exec [] = Except.ok (0, "\x7bSAMPLES: 0\x7d") := by
  have hpad : padLoop [(1 : ℚ)] [] = [(1 : ℚ)] := by
    rw [padLoop_eq [(1 : ℚ)] 1 [] rfl]
    rfl
  exact ⟨rfl, rfl, by rw [write_file_caller_Q, hpad], rfl⟩

end Qcodes
